import Mathlib

/-!
Verification of the object-resolution and completion subsystem of the
ldap_shell repository.

The Python sources embedded here are
  ldap_shell/utils/ldap_utils.py          (GUID codec, DN helpers, retry search)
  ldap_shell/completers/ad_object_completer.py   (completion engine)

Strings are modelled as `List Char`, byte sequences as `List Nat` with each
element below 256.  Python exceptions are modelled by `Option` results, and
the stateful ldap3 client by an explicit search function together with a log
of the filter strings passed to it.
-/

/-! ## Character helpers -/

/-- The space character, written via its code point. -/
def spc : Char := Char.ofNat 32

/-- The horizontal-tab character. -/
def tabC : Char := Char.ofNat 9

/-- The double-quote character. -/
def dquote : Char := Char.ofNat 34

/-- The single-quote character. -/
def squote : Char := Char.ofNat 39

/-- ASCII lower-casing, as Python `str.lower` acts on ASCII letters. -/
def lowerC (c : Char) : Char :=
  if 65 ≤ c.toNat ∧ c.toNat ≤ 90 then Char.ofNat (c.toNat + 32) else c

/-- ASCII upper-casing, as Python `str.upper` acts on ASCII letters.  Used to
state "equal up to letter-case normalisation". -/
def upperC (c : Char) : Char :=
  if 97 ≤ c.toNat ∧ c.toNat ≤ 122 then Char.ofNat (c.toNat - 32) else c

/-! ## GUID codec (LdapUtils.bin_to_string / LdapUtils.string_to_bin) -/

/-- The character class of the regex in `string_to_bin`: one of the 22
characters matched by the class of digits together with A-F and a-f. -/
def hexChars : List Char :=
  ['0', '1', '2', '3', '4', '5', '6', '7', '8', '9',
   'A', 'B', 'C', 'D', 'E', 'F', 'a', 'b', 'c', 'd', 'e', 'f']

/-- Membership in the regex character class. -/
def isHexDigitB (c : Char) : Bool := decide (c ∈ hexChars)

/-- Value of one hex digit, as Python `int(x, 16)` assigns to digit
characters (only meaningful on members of `hexChars`). -/
def hexVal (c : Char) : Nat :=
  if c.toNat ≤ 57 then c.toNat - 48
  else if c.toNat ≤ 70 then c.toNat - 55
  else c.toNat - 87

/-- Upper-case hex digit character for a value below 16, as produced by the
Python format specifier X. -/
def hexDigitChar (n : Nat) : Char :=
  if n < 10 then Char.ofNat (48 + n) else Char.ofNat (55 + n)

/-- Zero-padded fixed-width upper-case hex rendering: the low `w` nibbles of
`n`, most significant first.  For `n < 16 ^ w` this is exactly the Python
format `%0wX`, which is how every call in `bin_to_string` uses it (the
unpacked fields are bounded by their byte widths). -/
def fmtHex : Nat → Nat → List Char
  | 0, _ => []
  | w + 1, n => fmtHex w (n / 16) ++ [hexDigitChar (n % 16)]

/-- Value of a big-endian string of hex digits, as `int(x, 16)` computes it
on a string of digit characters. -/
def digitsVal (gs : List Char) : Nat :=
  gs.foldl (fun a c => 16 * a + hexVal c) 0

/-- Consume exactly `n` characters of the regex hex class from the front of
`s`, returning the consumed group and the remainder; `none` when a
non-class character (or the end of input) is hit first.  This is how the
unanchored `re.match` walks a group of the pattern. -/
def takeHex : Nat → List Char → Option (List Char × List Char)
  | 0, s => some ([], s)
  | _ + 1, [] => none
  | n + 1, c :: s =>
      if isHexDigitB c then (takeHex n s).map (fun p => (c :: p.1, p.2)) else none

/-- Consume the literal hyphen of the pattern. -/
def expectDash : List Char → Option (List Char)
  | [] => none
  | c :: s => if c = '-' then some s else none

/-- The canonical textual shape produced by `bin_to_string` and consumed by
`string_to_bin`: five hyphen-delimited groups where the final 12-character
group is the 4-character `g5` followed by the 8-character `g6`. -/
def guidText (g1 g2 g3 g4 g5 g6 : List Char) : List Char :=
  g1 ++ '-' :: (g2 ++ '-' :: (g3 ++ '-' :: (g4 ++ '-' :: (g5 ++ g6))))

/-- The byte list built by `pack` with formats little-endian L H H followed
by big-endian H H L (values are reduced mod 256 per byte; at every call the
fields are within their widths, where this agrees with `pack`). -/
def packGuid (u1 u2 u3 u4 u5 u6 : Nat) : List Nat :=
  [u1 % 256, u1 / 256 % 256, u1 / 65536 % 256, u1 / 16777216 % 256,
   u2 % 256, u2 / 256 % 256, u3 % 256, u3 / 256 % 256,
   u4 / 256 % 256, u4 % 256, u5 / 256 % 256, u5 % 256,
   u6 / 16777216 % 256, u6 / 65536 % 256, u6 / 256 % 256, u6 % 256]

/-- `LdapUtils.bin_to_string`: unpack bytes 0-7 as little-endian 32/16/16-bit
fields and bytes 8-15 as big-endian 16/16/32-bit fields, then format as
upper-case zero-padded hex with hyphens.  `unpack` demands exactly 8 bytes
per half, hence `none` for inputs shorter than 16 (extra trailing bytes are
ignored, matching the slices taken by the Python code). -/
def bin_to_string (uuid : List Nat) : Option (List Char) :=
  match uuid with
  | b0 :: b1 :: b2 :: b3 :: b4 :: b5 :: b6 :: b7 ::
      c0 :: c1 :: c2 :: c3 :: c4 :: c5 :: c6 :: c7 :: _ =>
      let u1 := b0 + 256 * b1 + 65536 * b2 + 16777216 * b3
      let u2 := b4 + 256 * b5
      let u3 := b6 + 256 * b7
      let u4 := 256 * c0 + c1
      let u5 := 256 * c2 + c3
      let u6 := 16777216 * c4 + 65536 * c5 + 256 * c6 + c7
      some (guidText (fmtHex 8 u1) (fmtHex 4 u2) (fmtHex 4 u3)
        (fmtHex 4 u4) (fmtHex 4 u5) (fmtHex 8 u6))
  | _ => none

/-- `LdapUtils.string_to_bin`: match the pattern of five hyphen-delimited
hex groups (8-4-4-4-4+8) at the START of the input — the Python regex is
anchored only on the left, so any trailing characters after the 36 matched
ones are ignored — parse each group as hex and re-pack with the mixed
endianness split.  `none` models the exception raised when `re.match`
returns no match object. -/
def string_to_bin (s : List Char) : Option (List Nat) :=
  match takeHex 8 s with
  | none => none
  | some (g1, r1) =>
    match expectDash r1 with
    | none => none
    | some r1b =>
      match takeHex 4 r1b with
      | none => none
      | some (g2, r2) =>
        match expectDash r2 with
        | none => none
        | some r2b =>
          match takeHex 4 r2b with
          | none => none
          | some (g3, r3) =>
            match expectDash r3 with
            | none => none
            | some r3b =>
              match takeHex 4 r3b with
              | none => none
              | some (g4, r4) =>
                match expectDash r4 with
                | none => none
                | some r4b =>
                  match takeHex 4 r4b with
                  | none => none
                  | some (g5, r5) =>
                    match takeHex 8 r5 with
                    | none => none
                    | some (g6, _) =>
                      some (packGuid (digitsVal g1) (digitsVal g2) (digitsVal g3)
                        (digitsVal g4) (digitsVal g5) (digitsVal g6))

/-- An input that BEGINS with the canonical five-group pattern, with an
arbitrary (possibly empty) tail after the 36 matched characters. -/
def CanonicalWithTail (s : List Char) : Prop :=
  ∃ g1 g2 g3 g4 g5 g6 r,
    g1.length = 8 ∧ g2.length = 4 ∧ g3.length = 4 ∧ g4.length = 4 ∧
    g5.length = 4 ∧ g6.length = 8 ∧
    (∀ c ∈ g1, isHexDigitB c = true) ∧ (∀ c ∈ g2, isHexDigitB c = true) ∧
    (∀ c ∈ g3, isHexDigitB c = true) ∧ (∀ c ∈ g4, isHexDigitB c = true) ∧
    (∀ c ∈ g5, isHexDigitB c = true) ∧ (∀ c ∈ g6, isHexDigitB c = true) ∧
    s = guidText g1 g2 g3 g4 g5 g6 ++ r

/-! ## Identity resolver (LdapUtils._search_with_retry) -/

/-- The filter string built by `_search_with_retry` for one search call. -/
def samFilter (name : List Char) : List Char :=
  ("(sAMAccountName=".toList) ++ name ++ [')']

/-- Python `name.endswith` applied to the dollar suffix marker. -/
def endsDollar (name : List Char) : Bool := name.getLast? == some '$'

/-- `LdapUtils._search_with_retry`.  The stateful ldap3 client is modelled by
the function `search` from a filter string to the entry list it would leave
in `client.entries`; alongside the result we log the filter of every search
actually issued, so that "exactly one retry" is visible in the embedding. -/
def _search_with_retry {α : Type} (search : List Char → List α) (name : List Char) :
    Option α × List (List Char) :=
  let q1 := samFilter name
  match search q1 with
  | e :: _ => (some e, [q1])
  | [] =>
    if endsDollar name = false then
      let q2 := samFilter (name ++ ['$'])
      match search q2 with
      | e :: _ => (some e, [q1, q2])
      | [] => (none, [q1, q2])
    else (none, [q1])

/-! ## Completion engine catalog fetch (ADObjectCompleter._get_ad_objects) -/

/-- One directory entry as seen by `_get_ad_objects`: its result-type
discriminator and the two attributes the completer may read (absent keys
modelled by `none`). -/
structure RawEntry where
  etype : String
  primary : Option String
  fallback : Option String
  deriving DecidableEq

/-- One step of the paged-search generator: either it yields an entry or it
raises; a raise ends the iteration. -/
inductive FetchEvent where
  | entry : RawEntry → FetchEvent
  | err : FetchEvent
  deriving DecidableEq

/-- Python `set.add`, with the set modelled as a duplicate-free list. -/
def insertSet (v : String) (acc : List String) : List String :=
  if v ∈ acc then acc else acc ++ [v]

/-- The try-body of `_get_ad_objects`: walk the generator, skipping records
that are not search-result entries, adding the primary attribute when
present, else the fallback when present; on a raised error the `except`
clause prints and the objects accumulated so far are returned. -/
def getAdObjectsAux : List String → List FetchEvent → List String
  | acc, [] => acc
  | acc, FetchEvent.err :: _ => acc
  | acc, FetchEvent.entry e :: rest =>
      if e.etype ≠ "searchResEntry" then getAdObjectsAux acc rest
      else
        match e.primary with
        | some v => getAdObjectsAux (insertSet v acc) rest
        | none =>
          match e.fallback with
          | some v => getAdObjectsAux (insertSet v acc) rest
          | none => getAdObjectsAux acc rest

/-- `ADObjectCompleter._get_ad_objects` on a given generator stream. -/
def get_ad_objects (stream : List FetchEvent) : List String :=
  getAdObjectsAux [] stream

/-- The cache interaction of `get_completions` (lines 27-30): consult the
cache for this completer class; on a miss run `_get_ad_objects` and store
the result.  Returns the catalog used and the cache state after the call. -/
def getCatalog (cache : Option (List String)) (stream : List FetchEvent) :
    List String × Option (List String) :=
  match cache with
  | some objs => (objs, some objs)
  | none => (get_ad_objects stream, some (get_ad_objects stream))

/-! ## Substring search (Python str.find / the in operator) -/

/-- Is `needle` a leading block of `hay`?  (Case-sensitive.) -/
def prefAt : List Char → List Char → Bool
  | [], _ => true
  | _ :: _, [] => false
  | c :: n, d :: h => c == d && prefAt n h

/-- Python `hay.find(needle)` restricted to found/not-found: index of the
first occurrence. -/
def findSub (needle : List Char) : List Char → Option Nat
  | [] => if prefAt needle [] then some 0 else none
  | c :: t =>
      if prefAt needle (c :: t) then some 0
      else (findSub needle t).map (fun i => i + 1)

/-- Python `needle in hay` for strings. -/
def containsSub (needle hay : List Char) : Bool := (findSub needle hay).isSome

/-- Python `hay.find(needle)` with its -1 convention. -/
def pyFind (hay needle : List Char) : Int :=
  match findSub needle hay with
  | some i => (i : Int)
  | none => -1

/-- Python slicing `s[i:]` for a possibly negative start index. -/
def pySlice (s : List Char) (i : Int) : List Char :=
  if i < 0 then s.drop (((s.length : Int) + i).toNat) else s.drop i.toNat

/-! ## DN helpers (LdapUtils.get_domain_name / get_name_from_dn) -/

/-- Worker for the body of `re.sub` with pattern comma-D-C-equals under the
case-insensitive flag: scan left to right; on a (case-insensitive) match
emit a dot and skip the remaining three matched characters (tracked by the
counter), else keep the character. -/
def replCIAux : Nat → List Char → List Char
  | _, [] => []
  | skip + 1, _ :: rest => replCIAux skip rest
  | 0, c :: rest =>
      if ((c :: rest).take 4).map lowerC == [',', 'd', 'c', '='] then
        '.' :: replCIAux 3 rest
      else c :: replCIAux 0 rest

/-- `re.sub` of the comma-D-C-equals pattern by a dot, case-insensitively,
replacing every non-overlapping occurrence left to right. -/
def replCI (s : List Char) : List Char := replCIAux 0 s

/-- `LdapUtils.get_domain_name`: slice from `dn.find` of the (case-sensitive)
marker D-C-equals, replace subsequent separators case-insensitively with
dots, and strip the three marker characters. -/
def get_domain_name (dn : List Char) : List Char :=
  (replCI (pySlice dn (pyFind dn ['D', 'C', '=']))).drop 3

/-- Python `s.split(sep)` for a single-character separator (keeps empty
pieces, result is never empty). -/
def pySplitChar (sep : Char) : List Char → List (List Char)
  | [] => [[]]
  | c :: rest =>
      if c = sep then [] :: pySplitChar sep rest
      else
        match pySplitChar sep rest with
        | [] => [[c]]
        | g :: gs => (c :: g) :: gs

/-- `LdapUtils.get_name_from_dn`: first comma-piece, then element 1 of its
equals-split; `none` models the index error when the piece has no equals
sign.  (`headD` is safe: a Python split result is never empty.) -/
def get_name_from_dn (dn : List Char) : Option (List Char) :=
  (pySplitChar '=' ((pySplitChar ',' dn).headD [])).get? 1

/-! ## Completion engine emission (ADObjectCompleter.get_completions) -/

/-- Python default whitespace for `str.split()` (ASCII part). -/
def isPyWs (c : Char) : Bool :=
  [spc, tabC, Char.ofNat 10, Char.ofNat 11, Char.ofNat 12, Char.ofNat 13].contains c

/-- Worker for `str.split()`: accumulate the current token (reversed). -/
def splitWsAux : List Char → List Char → List (List Char)
  | [], cur => if cur = [] then [] else [cur.reverse]
  | c :: rest, cur =>
      if isPyWs c then
        if cur = [] then splitWsAux rest [] else cur.reverse :: splitWsAux rest []
      else splitWsAux rest (c :: cur)

/-- Python `text.split()`: whitespace-delimited tokens, no empties. -/
def pySplitWs (s : List Char) : List (List Char) := splitWsAux s []

/-- In-quote state of `get_completions` (line 24): odd count of double or of
single quotes before the cursor. -/
def in_quotes (text : List Char) : Bool :=
  (text.count dquote % 2 == 1) || (text.count squote % 2 == 1)

/-- Current-word extraction of `get_completions` (lines 32-35): empty when
the text ends with a SPACE character, else the last `split()` token, else
empty. -/
def word_before_cursor (text : List Char) : List Char :=
  if text.getLast? == some spc then []
  else ((pySplitWs text).getLast?).getD []

/-- One emitted suggestion: the inserted text, the prompt-toolkit
start_position, and the display markup. -/
structure Completion where
  text : List Char
  start_position : Int
  display : List Char
  deriving DecidableEq

/-- The opening tag of the bold-black highlight markup in
`_highlight_match`. -/
def hlOpen : List Char :=
  ("<b><style fg=".toList) ++ squote :: ("black".toList) ++ squote :: ['>']

/-- The closing tag of the highlight markup. -/
def hlClose : List Char := "</style></b>".toList

/-- The opening tag of the per-type background-colour markup. -/
def styleOpen (color : List Char) : List Char :=
  ("<style bg=".toList) ++ squote :: color ++ squote :: ['>']

/-- `ADObjectCompleter._highlight_match`: wrap the first case-insensitive
occurrence of `substr` inside `text` in the bold-black markup; empty
`substr` and no occurrence return the text unchanged. -/
def _highlight_match (text substr : List Char) : List Char :=
  if substr = [] then text
  else
    match findSub (substr.map lowerC) (text.map lowerC) with
    | some index =>
        text.take index ++ hlOpen ++ ((text.drop index).take substr.length)
          ++ hlClose ++ text.drop (index + substr.length)
    | none => text

/-- Line 38-39 of the completer: wrap a space-containing candidate in double
quotes unless the input is already inside an open quote. -/
def adjustQuote (inq : Bool) (obj : List Char) : List Char :=
  if obj.contains spc && !inq then dquote :: (obj ++ [dquote]) else obj

/-- The loop body of `get_completions` for one catalog object: quote-adjust,
test the case-insensitive substring match of the current word against the
(adjusted) candidate, and on success build the Completion with highlight
markup and the optional per-type colour wrapper. -/
def completionsFor (color : Option (List Char)) (inq : Bool) (w : List Char)
    (obj0 : List Char) : Option Completion :=
  let obj := adjustQuote inq obj0
  if containsSub (w.map lowerC) (obj.map lowerC) then
    let d0 := _highlight_match obj w
    let d :=
      match color with
      | some col => styleOpen col ++ d0 ++ ("</style>".toList)
      | none => d0
    some ⟨obj, -(w.length : Int), d⟩
  else none

/-- `ADObjectCompleter.get_completions` on a fetched catalog: emit, in
catalog order, one Completion per matching object. -/
def get_completions (color : Option (List Char)) (cached : List (List Char))
    (text : List Char) : List Completion :=
  cached.filterMap (completionsFor color (in_quotes text) (word_before_cursor text))

/-! ## Helper lemmas: hex digits and fixed-width formatting -/

theorem hexVal_lt_16 : ∀ c ∈ hexChars, hexVal c < 16 := by decide

theorem hexDigitChar_mem : ∀ d < 16, isHexDigitB (hexDigitChar d) = true := by decide

theorem hexVal_hexDigitChar : ∀ d < 16, hexVal (hexDigitChar d) = d := by decide

theorem upperC_hexDigitChar : ∀ c ∈ hexChars, hexDigitChar (hexVal c) = upperC c := by decide

theorem upperC_dash : upperC '-' = '-' := by decide

theorem isHexDigitB_mem {c : Char} : isHexDigitB c = true ↔ c ∈ hexChars := by
  simp [isHexDigitB]

theorem fmtHex_length (w n : Nat) : (fmtHex w n).length = w := by
  induction w generalizing n with
  | zero => rfl
  | succ w ih => simp [fmtHex, ih]

theorem fmtHex_hex (w n : Nat) : ∀ c ∈ fmtHex w n, isHexDigitB c = true := by
  induction w generalizing n with
  | zero => intro c hc; simp [fmtHex] at hc
  | succ w ih =>
      intro c hc
      simp only [fmtHex, List.mem_append, List.mem_singleton] at hc
      rcases hc with h | h
      · exact ih _ _ h
      · subst h; exact hexDigitChar_mem _ (Nat.mod_lt _ (by omega))

theorem digitsVal_append_one (g : List Char) (c : Char) :
    digitsVal (g ++ [c]) = 16 * digitsVal g + hexVal c := by
  simp [digitsVal, List.foldl_append]

theorem digitsVal_fmtHex (w n : Nat) (h : n < 16 ^ w) :
    digitsVal (fmtHex w n) = n := by
  induction w generalizing n with
  | zero => simp at h; simp [h, fmtHex, digitsVal]
  | succ w ih =>
      have hdiv : n / 16 < 16 ^ w := by
        rw [Nat.pow_succ] at h; omega
      rw [fmtHex, digitsVal_append_one, ih _ hdiv,
        hexVal_hexDigitChar _ (Nat.mod_lt _ (by omega))]
      omega

theorem digitsVal_lt (g : List Char) (hg : ∀ c ∈ g, isHexDigitB c = true) :
    digitsVal g < 16 ^ g.length := by
  induction g using List.reverseRecOn with
  | nil => simp [digitsVal]
  | append_singleton g c ih =>
      rw [digitsVal_append_one]
      have h1 : digitsVal g < 16 ^ g.length :=
        ih (fun x hx => hg x (by simp [hx]))
      have h2 : hexVal c < 16 :=
        hexVal_lt_16 c (isHexDigitB_mem.mp (hg c (by simp)))
      rw [List.length_append, List.length_singleton, Nat.pow_succ]
      omega

theorem fmtHex_digitsVal (g : List Char) (hg : ∀ c ∈ g, isHexDigitB c = true) :
    fmtHex g.length (digitsVal g) = g.map upperC := by
  induction g using List.reverseRecOn with
  | nil => rfl
  | append_singleton g c ih =>
      have h2 : hexVal c < 16 :=
        hexVal_lt_16 c (isHexDigitB_mem.mp (hg c (by simp)))
      have hlen : (g ++ [c]).length = g.length + 1 := by simp
      rw [hlen, digitsVal_append_one, fmtHex]
      have hdivq : (16 * digitsVal g + hexVal c) / 16 = digitsVal g := by omega
      have hmodq : (16 * digitsVal g + hexVal c) % 16 = hexVal c := by omega
      rw [hdivq, hmodq, ih (fun x hx => hg x (by simp [hx])),
        upperC_hexDigitChar c (isHexDigitB_mem.mp (hg c (by simp)))]
      simp

/-! ## Helper lemmas: pattern walking in string_to_bin -/

theorem takeHex_append (g r : List Char) (hg : ∀ c ∈ g, isHexDigitB c = true) :
    takeHex g.length (g ++ r) = some (g, r) := by
  induction g with
  | nil => simp [takeHex]
  | cons c g ih =>
      simp only [List.length_cons, List.cons_append, takeHex, hg c (by simp),
        if_true, List.append_eq]
      rw [ih (fun x hx => hg x (by simp [hx]))]
      rfl

theorem takeHex_fixed (g r : List Char) (w : Nat) (hw : g.length = w)
    (hg : ∀ c ∈ g, isHexDigitB c = true) :
    takeHex w (g ++ r) = some (g, r) := by
  subst hw; exact takeHex_append g r hg

theorem takeHex_some : ∀ {n : Nat} {s g r : List Char},
    takeHex n s = some (g, r) →
    g.length = n ∧ (∀ c ∈ g, isHexDigitB c = true) ∧ s = g ++ r := by
  intro n
  induction n with
  | zero =>
      intro s g r h
      simp only [takeHex, Option.some.injEq, Prod.mk.injEq] at h
      obtain ⟨h1, h2⟩ := h
      subst h1; subst h2
      simp
  | succ n ih =>
      intro s g r h
      cases s with
      | nil => simp [takeHex] at h
      | cons c t =>
          simp only [takeHex] at h
          by_cases hc : isHexDigitB c = true
          · rw [if_pos hc] at h
            cases htk : takeHex n t with
            | none => rw [htk] at h; simp at h
            | some p =>
                rw [htk] at h
                simp only [Option.map_some', Option.some.injEq, Prod.mk.injEq] at h
                obtain ⟨hg1, hr1⟩ := h
                obtain ⟨hl, hx, hs⟩ := ih htk
                subst hg1; subst hr1
                refine ⟨by simp [hl], ?_, by simp [hs]⟩
                intro x hxm
                rcases List.mem_cons.mp hxm with h | h
                · subst h; exact hc
                · exact hx x h
          · rw [if_neg hc] at h; simp at h

theorem expectDash_cons (s : List Char) : expectDash ('-' :: s) = some s := rfl

theorem expectDash_some {s r : List Char} (h : expectDash s = some r) :
    s = '-' :: r := by
  cases s with
  | nil => simp [expectDash] at h
  | cons c t =>
      simp only [expectDash] at h
      by_cases hc : c = '-'
      · subst hc
        simp only [if_true] at h
        rw [Option.some.injEq] at h
        rw [h]
      · rw [if_neg hc] at h; simp at h

theorem pow168 : (16 : Nat) ^ 8 = 4294967296 := by norm_num

theorem pow164 : (16 : Nat) ^ 4 = 65536 := by norm_num

theorem string_to_bin_guidText (g1 g2 g3 g4 g5 g6 r : List Char)
    (l1 : g1.length = 8) (l2 : g2.length = 4) (l3 : g3.length = 4)
    (l4 : g4.length = 4) (l5 : g5.length = 4) (l6 : g6.length = 8)
    (h1 : ∀ c ∈ g1, isHexDigitB c = true) (h2 : ∀ c ∈ g2, isHexDigitB c = true)
    (h3 : ∀ c ∈ g3, isHexDigitB c = true) (h4 : ∀ c ∈ g4, isHexDigitB c = true)
    (h5 : ∀ c ∈ g5, isHexDigitB c = true) (h6 : ∀ c ∈ g6, isHexDigitB c = true) :
    string_to_bin (guidText g1 g2 g3 g4 g5 g6 ++ r) =
      some (packGuid (digitsVal g1) (digitsVal g2) (digitsVal g3)
        (digitsVal g4) (digitsVal g5) (digitsVal g6)) := by
  have e1 : guidText g1 g2 g3 g4 g5 g6 ++ r =
      g1 ++ ('-' :: (g2 ++ ('-' :: (g3 ++ ('-' :: (g4 ++ ('-' :: (g5 ++ (g6 ++ r))))))))) := by
    simp [guidText]
  have t1 := takeHex_fixed g1
    ('-' :: (g2 ++ ('-' :: (g3 ++ ('-' :: (g4 ++ ('-' :: (g5 ++ (g6 ++ r))))))))) 8 l1 h1
  have t2 := takeHex_fixed g2
    ('-' :: (g3 ++ ('-' :: (g4 ++ ('-' :: (g5 ++ (g6 ++ r))))))) 4 l2 h2
  have t3 := takeHex_fixed g3 ('-' :: (g4 ++ ('-' :: (g5 ++ (g6 ++ r))))) 4 l3 h3
  have t4 := takeHex_fixed g4 ('-' :: (g5 ++ (g6 ++ r))) 4 l4 h4
  have t5 := takeHex_fixed g5 (g6 ++ r) 4 l5 h5
  have t6 := takeHex_fixed g6 r 8 l6 h6
  rw [e1]
  simp only [string_to_bin, t1, t2, t3, t4, t5, t6, expectDash_cons]

theorem bin_to_string_packGuid (u1 u2 u3 u4 u5 u6 : Nat)
    (v1 : u1 < 4294967296) (v2 : u2 < 65536) (v3 : u3 < 65536)
    (v4 : u4 < 65536) (v5 : u5 < 65536) (v6 : u6 < 4294967296) :
    bin_to_string (packGuid u1 u2 u3 u4 u5 u6) =
      some (guidText (fmtHex 8 u1) (fmtHex 4 u2) (fmtHex 4 u3) (fmtHex 4 u4)
        (fmtHex 4 u5) (fmtHex 8 u6)) := by
  have q1 : u1 % 256 + 256 * (u1 / 256 % 256) + 65536 * (u1 / 65536 % 256)
      + 16777216 * (u1 / 16777216 % 256) = u1 := by omega
  have q2 : u2 % 256 + 256 * (u2 / 256 % 256) = u2 := by omega
  have q3 : u3 % 256 + 256 * (u3 / 256 % 256) = u3 := by omega
  have q4 : 256 * (u4 / 256 % 256) + u4 % 256 = u4 := by omega
  have q5 : 256 * (u5 / 256 % 256) + u5 % 256 = u5 := by omega
  have q6 : 16777216 * (u6 / 16777216 % 256) + 65536 * (u6 / 65536 % 256)
      + 256 * (u6 / 256 % 256) + u6 % 256 = u6 := by omega
  simp only [packGuid, bin_to_string]
  rw [q1, q2, q3, q4, q5, q6]

/-- C1: GUID round trip.  First part: for every 16-byte sequence, decoding
the text produced by `bin_to_string` with `string_to_bin` restores the
bytes.  Second part: for every canonically formatted GUID text (five
hyphen-delimited hex groups of lengths 8-4-4-4-12, the last group being the
4-character and 8-character halves), encoding the bytes produced by
`string_to_bin` with `bin_to_string` restores the text up to upper-casing
of the hex letters. -/
theorem guid_round_trip :
    (∀ b0 b1 b2 b3 b4 b5 b6 b7 c0 c1 c2 c3 c4 c5 c6 c7 : Nat,
      b0 < 256 → b1 < 256 → b2 < 256 → b3 < 256 →
      b4 < 256 → b5 < 256 → b6 < 256 → b7 < 256 →
      c0 < 256 → c1 < 256 → c2 < 256 → c3 < 256 →
      c4 < 256 → c5 < 256 → c6 < 256 → c7 < 256 →
      (bin_to_string [b0, b1, b2, b3, b4, b5, b6, b7,
          c0, c1, c2, c3, c4, c5, c6, c7]).bind string_to_bin
        = some [b0, b1, b2, b3, b4, b5, b6, b7, c0, c1, c2, c3, c4, c5, c6, c7])
    ∧ (∀ g1 g2 g3 g4 g5 g6 : List Char,
      g1.length = 8 → g2.length = 4 → g3.length = 4 → g4.length = 4 →
      g5.length = 4 → g6.length = 8 →
      (∀ c ∈ g1, isHexDigitB c = true) → (∀ c ∈ g2, isHexDigitB c = true) →
      (∀ c ∈ g3, isHexDigitB c = true) → (∀ c ∈ g4, isHexDigitB c = true) →
      (∀ c ∈ g5, isHexDigitB c = true) → (∀ c ∈ g6, isHexDigitB c = true) →
      (string_to_bin (guidText g1 g2 g3 g4 g5 g6)).bind bin_to_string
        = some ((guidText g1 g2 g3 g4 g5 g6).map upperC)) := by
  constructor
  · intro b0 b1 b2 b3 b4 b5 b6 b7 c0 c1 c2 c3 c4 c5 c6 c7
    intro k0 k1 k2 k3 k4 k5 k6 k7 m0 m1 m2 m3 m4 m5 m6 m7
    set u1 := b0 + 256 * b1 + 65536 * b2 + 16777216 * b3 with hu1
    set u2 := b4 + 256 * b5 with hu2
    set u3 := b6 + 256 * b7 with hu3
    set u4 := 256 * c0 + c1 with hu4
    set u5 := 256 * c2 + c3 with hu5
    set u6 := 16777216 * c4 + 65536 * c5 + 256 * c6 + c7 with hu6
    have hb : bin_to_string [b0, b1, b2, b3, b4, b5, b6, b7,
        c0, c1, c2, c3, c4, c5, c6, c7]
        = some (guidText (fmtHex 8 u1) (fmtHex 4 u2) (fmtHex 4 u3)
            (fmtHex 4 u4) (fmtHex 4 u5) (fmtHex 8 u6)) := by
      rw [hu1, hu2, hu3, hu4, hu5, hu6]
      rfl
    rw [hb, Option.some_bind]
    have hstb := string_to_bin_guidText (fmtHex 8 u1) (fmtHex 4 u2) (fmtHex 4 u3)
      (fmtHex 4 u4) (fmtHex 4 u5) (fmtHex 8 u6) []
      (fmtHex_length 8 u1) (fmtHex_length 4 u2) (fmtHex_length 4 u3)
      (fmtHex_length 4 u4) (fmtHex_length 4 u5) (fmtHex_length 8 u6)
      (fmtHex_hex 8 u1) (fmtHex_hex 4 u2) (fmtHex_hex 4 u3)
      (fmtHex_hex 4 u4) (fmtHex_hex 4 u5) (fmtHex_hex 8 u6)
    rw [List.append_nil] at hstb
    rw [hstb]
    rw [digitsVal_fmtHex 8 u1 (by rw [pow168]; omega),
      digitsVal_fmtHex 4 u2 (by rw [pow164]; omega),
      digitsVal_fmtHex 4 u3 (by rw [pow164]; omega),
      digitsVal_fmtHex 4 u4 (by rw [pow164]; omega),
      digitsVal_fmtHex 4 u5 (by rw [pow164]; omega),
      digitsVal_fmtHex 8 u6 (by rw [pow168]; omega)]
    simp only [packGuid, Option.some.injEq, List.cons.injEq, and_true]
    omega
  · intro g1 g2 g3 g4 g5 g6 l1 l2 l3 l4 l5 l6 h1 h2 h3 h4 h5 h6
    have hstb := string_to_bin_guidText g1 g2 g3 g4 g5 g6 []
      l1 l2 l3 l4 l5 l6 h1 h2 h3 h4 h5 h6
    rw [List.append_nil] at hstb
    rw [hstb, Option.some_bind]
    have d1 : digitsVal g1 < 4294967296 := by
      have := digitsVal_lt g1 h1; rw [l1, pow168] at this; exact this
    have d2 : digitsVal g2 < 65536 := by
      have := digitsVal_lt g2 h2; rw [l2, pow164] at this; exact this
    have d3 : digitsVal g3 < 65536 := by
      have := digitsVal_lt g3 h3; rw [l3, pow164] at this; exact this
    have d4 : digitsVal g4 < 65536 := by
      have := digitsVal_lt g4 h4; rw [l4, pow164] at this; exact this
    have d5 : digitsVal g5 < 65536 := by
      have := digitsVal_lt g5 h5; rw [l5, pow164] at this; exact this
    have d6 : digitsVal g6 < 4294967296 := by
      have := digitsVal_lt g6 h6; rw [l6, pow168] at this; exact this
    rw [bin_to_string_packGuid _ _ _ _ _ _ d1 d2 d3 d4 d5 d6]
    have e1 : fmtHex 8 (digitsVal g1) = g1.map upperC := by
      rw [← l1]; exact fmtHex_digitsVal g1 h1
    have e2 : fmtHex 4 (digitsVal g2) = g2.map upperC := by
      rw [← l2]; exact fmtHex_digitsVal g2 h2
    have e3 : fmtHex 4 (digitsVal g3) = g3.map upperC := by
      rw [← l3]; exact fmtHex_digitsVal g3 h3
    have e4 : fmtHex 4 (digitsVal g4) = g4.map upperC := by
      rw [← l4]; exact fmtHex_digitsVal g4 h4
    have e5 : fmtHex 4 (digitsVal g5) = g5.map upperC := by
      rw [← l5]; exact fmtHex_digitsVal g5 h5
    have e6 : fmtHex 8 (digitsVal g6) = g6.map upperC := by
      rw [← l6]; exact fmtHex_digitsVal g6 h6
    rw [e1, e2, e3, e4, e5, e6]
    simp [guidText, upperC_dash]

/-- Witness for C1 at a concrete byte list and a concrete (mixed-case)
canonical text. -/
theorem guid_round_trip_witness :
    (bin_to_string [3, 1, 4, 1, 5, 9, 2, 6, 5, 3, 5, 8, 9, 7, 9, 3]).bind
        string_to_bin
      = some [3, 1, 4, 1, 5, 9, 2, 6, 5, 3, 5, 8, 9, 7, 9, 3]
    ∧ (string_to_bin (guidText ("0a1b2c3d".toList) ("4e5f".toList)
          ("6789".toList) ("abcd".toList) ("ef01".toList)
          ("23456789".toList))).bind bin_to_string
      = some ((guidText ("0a1b2c3d".toList) ("4e5f".toList) ("6789".toList)
          ("abcd".toList) ("ef01".toList) ("23456789".toList)).map upperC) :=
  ⟨guid_round_trip.1 3 1 4 1 5 9 2 6 5 3 5 8 9 7 9 3
      (by omega) (by omega) (by omega) (by omega) (by omega) (by omega)
      (by omega) (by omega) (by omega) (by omega) (by omega) (by omega)
      (by omega) (by omega) (by omega) (by omega),
    guid_round_trip.2 ("0a1b2c3d".toList) ("4e5f".toList) ("6789".toList)
      ("abcd".toList) ("ef01".toList) ("23456789".toList)
      (by decide) (by decide) (by decide) (by decide) (by decide) (by decide)
      (by decide) (by decide) (by decide) (by decide) (by decide) (by decide)⟩

/-- Counterexample for C2: canonical text followed by a trailing garbage
character is accepted by `string_to_bin` and parsed from the 36-character
prefix, instead of being rejected as the claim requires. -/
theorem string_to_bin_trailing_accepted :
    string_to_bin ("00000000-0000-0000-0000-000000000000X".toList)
      = some [0, 0, 0, 0, 0, 0, 0, 0, 0, 0, 0, 0, 0, 0, 0, 0] := by decide

/-- C2 (amended): `string_to_bin` fails exactly on inputs that do not BEGIN
with the five-group pattern; an input whose 36-character head is canonical
is parsed from that head, with any trailing characters silently ignored
(the result does not depend on the tail). -/
theorem string_to_bin_prefix_semantics :
    (∀ s bytes, string_to_bin s = some bytes → CanonicalWithTail s)
    ∧ (∀ g1 g2 g3 g4 g5 g6 r : List Char,
        g1.length = 8 → g2.length = 4 → g3.length = 4 → g4.length = 4 →
        g5.length = 4 → g6.length = 8 →
        (∀ c ∈ g1, isHexDigitB c = true) → (∀ c ∈ g2, isHexDigitB c = true) →
        (∀ c ∈ g3, isHexDigitB c = true) → (∀ c ∈ g4, isHexDigitB c = true) →
        (∀ c ∈ g5, isHexDigitB c = true) → (∀ c ∈ g6, isHexDigitB c = true) →
        string_to_bin (guidText g1 g2 g3 g4 g5 g6 ++ r)
          = some (packGuid (digitsVal g1) (digitsVal g2) (digitsVal g3)
              (digitsVal g4) (digitsVal g5) (digitsVal g6))) := by
  constructor
  · intro s bytes h
    unfold string_to_bin at h
    cases e1 : takeHex 8 s with
    | none => rw [e1] at h; simp at h
    | some p1 =>
      obtain ⟨g1, r1⟩ := p1
      rw [e1] at h; dsimp only at h
      obtain ⟨L1, X1, hs1⟩ := takeHex_some e1
      cases e2 : expectDash r1 with
      | none => rw [e2] at h; simp at h
      | some r1b =>
        rw [e2] at h; dsimp only at h
        have hr1 := expectDash_some e2
        cases e3 : takeHex 4 r1b with
        | none => rw [e3] at h; simp at h
        | some p2 =>
          obtain ⟨g2, r2⟩ := p2
          rw [e3] at h; dsimp only at h
          obtain ⟨L2, X2, hs2⟩ := takeHex_some e3
          cases e4 : expectDash r2 with
          | none => rw [e4] at h; simp at h
          | some r2b =>
            rw [e4] at h; dsimp only at h
            have hr2 := expectDash_some e4
            cases e5 : takeHex 4 r2b with
            | none => rw [e5] at h; simp at h
            | some p3 =>
              obtain ⟨g3, r3⟩ := p3
              rw [e5] at h; dsimp only at h
              obtain ⟨L3, X3, hs3⟩ := takeHex_some e5
              cases e6 : expectDash r3 with
              | none => rw [e6] at h; simp at h
              | some r3b =>
                rw [e6] at h; dsimp only at h
                have hr3 := expectDash_some e6
                cases e7 : takeHex 4 r3b with
                | none => rw [e7] at h; simp at h
                | some p4 =>
                  obtain ⟨g4, r4⟩ := p4
                  rw [e7] at h; dsimp only at h
                  obtain ⟨L4, X4, hs4⟩ := takeHex_some e7
                  cases e8 : expectDash r4 with
                  | none => rw [e8] at h; simp at h
                  | some r4b =>
                    rw [e8] at h; dsimp only at h
                    have hr4 := expectDash_some e8
                    cases e9 : takeHex 4 r4b with
                    | none => rw [e9] at h; simp at h
                    | some p5 =>
                      obtain ⟨g5, r5⟩ := p5
                      rw [e9] at h; dsimp only at h
                      obtain ⟨L5, X5, hs5⟩ := takeHex_some e9
                      cases e10 : takeHex 8 r5 with
                      | none => rw [e10] at h; simp at h
                      | some p6 =>
                        obtain ⟨g6, rest⟩ := p6
                        obtain ⟨L6, X6, hs6⟩ := takeHex_some e10
                        refine ⟨g1, g2, g3, g4, g5, g6, rest,
                          L1, L2, L3, L4, L5, L6, X1, X2, X3, X4, X5, X6, ?_⟩
                        rw [hs1, hr1, hs2, hr2, hs3, hr3, hs4, hr4, hs5, hs6]
                        simp [guidText]
  · intro g1 g2 g3 g4 g5 g6 r l1 l2 l3 l4 l5 l6 h1 h2 h3 h4 h5 h6
    exact string_to_bin_guidText g1 g2 g3 g4 g5 g6 r
      l1 l2 l3 l4 l5 l6 h1 h2 h3 h4 h5 h6

/-- Witness for C2 (amended) at a concrete canonical head with a concrete
non-empty tail. -/
theorem string_to_bin_prefix_semantics_witness :
    string_to_bin (guidText ("12345678".toList) ("9abc".toList)
        ("def0".toList) ("1234".toList) ("5678".toList) ("9abcdef0".toList)
        ++ ("XYZ".toList))
      = some (packGuid (digitsVal ("12345678".toList))
          (digitsVal ("9abc".toList)) (digitsVal ("def0".toList))
          (digitsVal ("1234".toList)) (digitsVal ("5678".toList))
          (digitsVal ("9abcdef0".toList))) :=
  string_to_bin_prefix_semantics.2 ("12345678".toList) ("9abc".toList)
    ("def0".toList) ("1234".toList) ("5678".toList) ("9abcdef0".toList)
    ("XYZ".toList)
    (by decide) (by decide) (by decide) (by decide) (by decide) (by decide)
    (by decide) (by decide) (by decide) (by decide) (by decide) (by decide)

/-- C3: machine-account retry.  For every directory and name: if the first
search (by exact sAMAccountName equality) returns entries, the first entry
is returned after exactly that one search; if it returns none and the name
does not end with the dollar marker, exactly one retry with the identical
filter for the suffixed name is made and its first entry (or absence) is
returned; if the name already ends with the marker, no retry happens.  In
particular a name whose suffixed variant has exactly one entry resolves to
that entry. -/
theorem search_with_retry_spec {α : Type} (search : List Char → List α)
    (name : List Char) :
    (search (samFilter name) ≠ [] →
      _search_with_retry search name
        = ((search (samFilter name)).head?, [samFilter name]))
    ∧ (search (samFilter name) = [] → endsDollar name = false →
      _search_with_retry search name
        = ((search (samFilter (name ++ ['$']))).head?,
            [samFilter name, samFilter (name ++ ['$'])]))
    ∧ (search (samFilter name) = [] → endsDollar name = true →
      _search_with_retry search name = (none, [samFilter name]))
    ∧ (∀ e, search (samFilter name) = [] → endsDollar name = false →
      search (samFilter (name ++ ['$'])) = [e] →
      (_search_with_retry search name).1 = some e) := by
  refine ⟨?_, ?_, ?_, ?_⟩
  · intro hne
    unfold _search_with_retry
    dsimp only
    cases hq : search (samFilter name) with
    | nil => exact absurd hq hne
    | cons e es => rfl
  · intro hq hd
    unfold _search_with_retry
    dsimp only
    rw [hq]
    simp only [hd]
    cases hq2 : search (samFilter (name ++ ['$'])) with
    | nil => rfl
    | cons e es => rfl
  · intro hq hd
    unfold _search_with_retry
    dsimp only
    rw [hq]
    simp [hd]
  · intro e hq hd hone
    unfold _search_with_retry
    dsimp only
    rw [hq]
    simp only [hd]
    rw [hone]
    simp

/-- Witness for C3: a directory holding only the suffixed machine account
resolves the short name to that entry through the retry. -/
theorem search_with_retry_spec_witness :
    (_search_with_retry
        (fun q => if q = samFilter ("ws01$".toList) then [7] else ([] : List Nat))
        ("ws01".toList)).1 = some 7 :=
  (search_with_retry_spec
      (fun q => if q = samFilter ("ws01$".toList) then [7] else ([] : List Nat))
      ("ws01".toList)).2.2.2 7 (by decide) (by decide) (by decide)

/-- Counterexample for C4: a stream that yields one entry and then raises
makes `_get_ad_objects` return the partially accumulated catalog, not an
empty one. -/
theorem get_ad_objects_partial_counterexample :
    get_ad_objects [FetchEvent.entry ⟨"searchResEntry", some "a", none⟩,
        FetchEvent.err] = ["a"]
    ∧ get_ad_objects [FetchEvent.entry ⟨"searchResEntry", some "a", none⟩,
        FetchEvent.err] ≠ [] := by
  constructor
  · rfl
  · intro h
    simp [get_ad_objects, getAdObjectsAux, insertSet] at h

theorem getAdObjectsAux_err (pre : List FetchEvent) :
    ∀ acc rest, FetchEvent.err ∉ pre →
      getAdObjectsAux acc (pre ++ FetchEvent.err :: rest) = getAdObjectsAux acc pre := by
  induction pre with
  | nil => intro acc rest h; rfl
  | cons ev pre ih =>
      intro acc rest h
      have hne : ev ≠ FetchEvent.err := by
        intro he
        exact h (by rw [he]; exact List.mem_cons_self _ _)
      have hnotin : FetchEvent.err ∉ pre := fun hm => h (List.mem_cons_of_mem _ hm)
      cases ev with
      | err => exact absurd rfl hne
      | entry e =>
          simp only [List.cons_append, getAdObjectsAux]
          by_cases ht : e.etype ≠ "searchResEntry"
          · simp only [if_pos ht]
            exact ih _ _ hnotin
          · simp only [if_neg ht]
            cases hp : e.primary with
            | some v => exact ih _ _ hnotin
            | none =>
                cases hf : e.fallback with
                | some v => exact ih _ _ hnotin
                | none => exact ih _ _ hnotin

/-- C4 (amended): when the paged search raises mid-stream, the completer
catches the error and returns the catalog accumulated BEFORE the error
(empty only when the error precedes every entry) — it never re-raises, the
events after the error are never consumed; the result is stored in the
cache, and a later call with a populated cache returns the cached catalog
without touching the directory stream at all. -/
theorem get_ad_objects_degraded :
    (∀ pre rest, FetchEvent.err ∉ pre →
      get_ad_objects (pre ++ FetchEvent.err :: rest) = get_ad_objects pre)
    ∧ (∀ stream, getCatalog none stream
        = (get_ad_objects stream, some (get_ad_objects stream)))
    ∧ (∀ objs stream, getCatalog (some objs) stream = (objs, some objs)) := by
  refine ⟨?_, ?_, ?_⟩
  · intro pre rest h
    exact getAdObjectsAux_err pre [] rest h
  · intro stream; rfl
  · intro objs stream; rfl

/-- Witness for C4 (amended): the error swallows the tail of a concrete
stream. -/
theorem get_ad_objects_degraded_witness :
    get_ad_objects ([FetchEvent.entry ⟨"searchResEntry", some "a", none⟩]
        ++ FetchEvent.err :: [FetchEvent.entry ⟨"searchResEntry", some "b", none⟩])
      = get_ad_objects [FetchEvent.entry ⟨"searchResEntry", some "a", none⟩] :=
  get_ad_objects_degraded.1 _ _ (by decide)

/-! ## Lemmas about substring search and Python split -/

theorem findSub_some {needle : List Char} : ∀ {hay : List Char} {i : Nat},
    findSub needle hay = some i →
    prefAt needle (hay.drop i) = true
      ∧ ∀ j, j < i → prefAt needle (hay.drop j) = false := by
  intro hay
  induction hay with
  | nil =>
      intro i h
      simp only [findSub] at h
      by_cases hp : prefAt needle [] = true
      · rw [if_pos hp, Option.some.injEq] at h
        subst h
        exact ⟨hp, fun j hj => absurd hj (by omega)⟩
      · rw [if_neg hp] at h; simp at h
  | cons c t ih =>
      intro i h
      simp only [findSub] at h
      by_cases hp : prefAt needle (c :: t) = true
      · rw [if_pos hp, Option.some.injEq] at h
        subst h
        exact ⟨hp, fun j hj => absurd hj (by omega)⟩
      · rw [if_neg hp] at h
        cases hf : findSub needle t with
        | none => rw [hf] at h; simp at h
        | some i0 =>
            rw [hf] at h
            simp only [Option.map_some', Option.some.injEq] at h
            subst h
            obtain ⟨h1, h2⟩ := ih hf
            constructor
            · simpa [List.drop_succ_cons] using h1
            · intro j hj
              cases j with
              | zero =>
                  simp only [Bool.not_eq_true] at hp
                  simpa using hp
              | succ j0 =>
                  simpa [List.drop_succ_cons] using h2 j0 (by omega)

/-- Counterexample for C5: the claim calls locating the marker
case-insensitive, but `dn.find` is case-sensitive; a DN whose
domain-component markers are lower-case yields the empty string instead of
the domain name. -/
theorem get_domain_name_lowercase_counterexample :
    get_domain_name ("CN=x,dc=corp,dc=local".toList) = []
    ∧ get_domain_name ("CN=x,dc=corp,dc=local".toList) ≠ ("corp.local".toList) := by
  constructor
  · rfl
  · decide

/-- C5 (amended): the marker D-C-equals is located CASE-SENSITIVELY (the
substring taken starts at its genuinely first occurrence), only the
subsequent comma-separator replacement is case-insensitive; on the claim's
own example, and on one with mixed-case separators, the expected domain
name is produced. -/
theorem get_domain_name_first_marker :
    (∀ dn i, findSub ['D', 'C', '='] dn = some i →
      prefAt ['D', 'C', '='] (dn.drop i) = true
        ∧ (∀ j, j < i → prefAt ['D', 'C', '='] (dn.drop j) = false)
        ∧ get_domain_name dn = (replCI (dn.drop i)).drop 3)
    ∧ get_domain_name ("CN=Users,DC=corp,DC=example,DC=com".toList)
        = ("corp.example.com".toList)
    ∧ get_domain_name ("CN=Users,DC=corp,dc=example,DC=com".toList)
        = ("corp.example.com".toList) := by
  refine ⟨?_, by decide, by decide⟩
  intro dn i h
  obtain ⟨h1, h2⟩ := findSub_some h
  refine ⟨h1, h2, ?_⟩
  unfold get_domain_name pyFind
  rw [h]
  have : ¬ ((i : Int) < 0) := by omega
  simp [pySlice, this]

/-- Witness for C5 (amended) at a concrete DN with the marker at index 5. -/
theorem get_domain_name_first_marker_witness :
    get_domain_name ("CN=x,DC=y".toList)
      = (replCI (("CN=x,DC=y".toList).drop 5)).drop 3 :=
  (get_domain_name_first_marker.1 ("CN=x,DC=y".toList) 5 (by decide)).2.2

/-! ## Lemmas about single-character split -/

theorem pySplitChar_no_sep (sep : Char) (x : List Char) (hx : sep ∉ x) :
    pySplitChar sep x = [x] := by
  induction x with
  | nil => rfl
  | cons c t ih =>
      have hc : c ≠ sep := fun he => hx (by rw [he]; exact List.mem_cons_self _ _)
      have ht : sep ∉ t := fun hm => hx (List.mem_cons_of_mem _ hm)
      simp only [pySplitChar, if_neg hc, ih ht]

theorem pySplitChar_sep (sep : Char) (x r : List Char) (hx : sep ∉ x) :
    pySplitChar sep (x ++ sep :: r) = x :: pySplitChar sep r := by
  induction x with
  | nil => simp [pySplitChar]
  | cons c t ih =>
      have hc : c ≠ sep := fun he => hx (by rw [he]; exact List.mem_cons_self _ _)
      have ht : sep ∉ t := fun hm => hx (List.mem_cons_of_mem _ hm)
      have hne : pySplitChar sep (t ++ sep :: r) ≠ [] := by
        rw [ih ht]; simp
      simp only [List.cons_append, pySplitChar, if_neg hc, List.append_eq]
      rw [ih ht]

/-- Counterexample for C9: when the value of the first RDN itself contains
an equals sign, only the segment up to the SECOND equals sign is returned,
not the entire right-hand side the claim promises. -/
theorem name_from_dn_counterexample :
    get_name_from_dn ("CN=a=b,DC=x".toList) = some ("a".toList)
    ∧ get_name_from_dn ("CN=a=b,DC=x".toList) ≠ some ("a=b".toList) := by
  constructor
  · rfl
  · decide

/-- C9 (amended): `get_name_from_dn` returns the segment of the first
comma-piece lying strictly between its first and second equals signs: for a
well-formed RDN (value free of separators) that is the whole value, but a
value containing an equals sign is truncated at it. -/
theorem name_from_dn_segments :
    (∀ a b rest : List Char, ',' ∉ a → '=' ∉ a → ',' ∉ b → '=' ∉ b →
      get_name_from_dn (a ++ '=' :: b ++ ',' :: rest) = some b)
    ∧ (∀ a b c rest : List Char, ',' ∉ a → '=' ∉ a → ',' ∉ b → '=' ∉ b →
        ',' ∉ c → '=' ∉ c →
      get_name_from_dn (a ++ '=' :: b ++ '=' :: c ++ ',' :: rest) = some b) := by
  constructor
  · intro a b rest ha1 ha2 hb1 hb2
    unfold get_name_from_dn
    have hcomma : ',' ∉ a ++ '=' :: b := by
      intro hm
      rcases List.mem_append.mp hm with h | h
      · exact ha1 h
      · rcases List.mem_cons.mp h with h | h
        · exact absurd h.symm (by decide)
        · exact hb1 h
    have e0 : a ++ '=' :: b ++ ',' :: rest = (a ++ '=' :: b) ++ ',' :: rest := by
      simp
    rw [e0, pySplitChar_sep ',' (a ++ '=' :: b) rest hcomma]
    simp only [List.headD_cons]
    rw [pySplitChar_sep '=' a b ha2, pySplitChar_no_sep '=' b hb2]
    rfl
  · intro a b c rest ha1 ha2 hb1 hb2 hc1 hc2
    unfold get_name_from_dn
    have hcomma : ',' ∉ a ++ '=' :: b ++ '=' :: c := by
      intro hm
      rcases List.mem_append.mp hm with h | h
      · rcases List.mem_append.mp h with h | h
        · exact ha1 h
        · rcases List.mem_cons.mp h with h | h
          · exact absurd h.symm (by decide)
          · exact hb1 h
      · rcases List.mem_cons.mp h with h | h
        · exact absurd h.symm (by decide)
        · exact hc1 h
    have e0 : a ++ '=' :: b ++ '=' :: c ++ ',' :: rest
        = (a ++ '=' :: b ++ '=' :: c) ++ ',' :: rest := by
      simp
    rw [e0, pySplitChar_sep ',' (a ++ '=' :: b ++ '=' :: c) rest hcomma]
    simp only [List.headD_cons]
    have e1 : a ++ '=' :: b ++ '=' :: c = a ++ '=' :: (b ++ '=' :: c) := by
      simp
    rw [e1, pySplitChar_sep '=' a (b ++ '=' :: c) ha2,
      pySplitChar_sep '=' b c hb2]
    rfl

/-- Witness for C9 (amended) on a concrete well-formed DN. -/
theorem name_from_dn_segments_witness :
    get_name_from_dn (("CN".toList) ++ '=' :: ("Users".toList)
        ++ ',' :: ("DC=x".toList)) = some ("Users".toList) :=
  name_from_dn_segments.1 ("CN".toList) ("Users".toList) ("DC=x".toList)
    (by decide) (by decide) (by decide) (by decide)

/-! ## Lemmas about the completion loop body -/

theorem completionsFor_text (color : Option (List Char)) (inq : Bool)
    (w obj : List Char) (c : Completion)
    (h : completionsFor color inq w obj = some c) :
    c.text = adjustQuote inq obj := by
  unfold completionsFor at h
  dsimp only at h
  by_cases hm : containsSub (w.map lowerC) ((adjustQuote inq obj).map lowerC) = true
  · rw [if_pos hm, Option.some.injEq] at h
    rw [← h]
  · rw [if_neg hm] at h
    exact absurd h (by simp)

theorem completionsFor_isSome (color : Option (List Char)) (inq : Bool)
    (w obj : List Char) :
    (completionsFor color inq w obj).map Completion.text
      = if containsSub (w.map lowerC) ((adjustQuote inq obj).map lowerC) = true
        then some (adjustQuote inq obj) else none := by
  unfold completionsFor
  dsimp only
  by_cases hm : containsSub (w.map lowerC) ((adjustQuote inq obj).map lowerC) = true
  · rw [if_pos hm, if_pos hm]
    rfl
  · rw [if_neg hm, if_neg hm]
    rfl

theorem filterMap_map_filter {α β γ : Type} (f : α → Option β) (g : β → γ)
    (h : α → γ) (p : γ → Bool)
    (H : ∀ a, (f a).map g = if p (h a) = true then some (h a) else none) :
    ∀ l : List α, (l.filterMap f).map g = (l.map h).filter p := by
  intro l
  induction l with
  | nil => rfl
  | cons a t ih =>
      rw [List.filterMap_cons]
      cases hf : f a with
      | none =>
          have hH := H a
          rw [hf] at hH
          simp only [Option.map_none'] at hH
          by_cases hp : p (h a) = true
          · rw [if_pos hp] at hH
            exact absurd hH (by simp)
          · have hp2 : p (h a) = false := by
              revert hp; cases p (h a) <;> simp
            rw [List.map_cons, List.filter_cons, hp2]
            simpa using ih
      | some b =>
          have hH := H a
          rw [hf] at hH
          simp only [Option.map_some'] at hH
          by_cases hp : p (h a) = true
          · rw [if_pos hp, Option.some.injEq] at hH
            rw [List.map_cons, List.map_cons, List.filter_cons, hp, hH]
            simp [ih]
          · rw [if_neg hp] at hH
            exact absurd hH (by simp)

/-- C6: quoting policy.  Every emitted completion arises from some catalog
object through the loop body; and for the loop body, when the candidate
contains a space and the in-quote state is false the inserted text is the
candidate wrapped in double quotes, while when the in-quote state is true
the inserted text is the candidate unchanged. -/
theorem quoting_policy :
    (∀ (color : Option (List Char)) (cached : List (List Char))
        (text : List Char) (c : Completion),
      c ∈ get_completions color cached text →
      ∃ obj, obj ∈ cached
        ∧ completionsFor color (in_quotes text) (word_before_cursor text) obj
            = some c)
    ∧ (∀ (color : Option (List Char)) (text obj : List Char) (c : Completion),
      completionsFor color (in_quotes text) (word_before_cursor text) obj
          = some c →
      ((obj.contains spc = true ∧ in_quotes text = false) →
          c.text = dquote :: (obj ++ [dquote]))
      ∧ (in_quotes text = true → c.text = obj)) := by
  constructor
  · intro color cached text c hc
    exact List.mem_filterMap.mp hc
  · intro color text obj c hc
    have ht := completionsFor_text _ _ _ _ _ hc
    constructor
    · rintro ⟨h1, h2⟩
      rw [ht]
      unfold adjustQuote
      rw [h2, h1]
      rfl
    · intro h2
      rw [ht]
      unfold adjustQuote
      rw [h2]
      simp

/-- Witness for C6: a space-containing candidate completed outside quotes is
inserted with surrounding double quotes. -/
theorem quoting_policy_witness :
    Completion.text ⟨[dquote, 'a', spc, 'b', dquote], -1,
        [dquote] ++ hlOpen ++ ['a'] ++ hlClose ++ [spc, 'b', dquote]⟩
      = dquote :: (['a', spc, 'b'] ++ [dquote]) :=
  ((quoting_policy.2 none ['a'] ['a', spc, 'b']
      ⟨[dquote, 'a', spc, 'b', dquote], -1,
        [dquote] ++ hlOpen ++ ['a'] ++ hlClose ++ [spc, 'b', dquote]⟩
      (by decide)).1 ⟨by decide, by decide⟩)

/-- Counterexample for C7: with catalog member containing a space and a
current word containing a double quote (while the quote counts before the
cursor stay even), the candidate is emitted although the current word is
NOT a case-insensitive substring of the candidate — the match was decided
against the quote-wrapped string instead. -/
theorem matching_quote_counterexample :
    (get_completions none [['a', spc, 'b']] [dquote, spc, dquote, 'a']).length = 1
    ∧ containsSub ((word_before_cursor [dquote, spc, dquote, 'a']).map lowerC)
        (['a', spc, 'b'].map lowerC) = false := by
  constructor
  · rfl
  · rfl

/-- C7 (amended): the emitted candidates are exactly the quote-adjusted
catalog entries of which the current word is a case-insensitive substring
(the match is tested after quote wrapping); on the claim's example catalog
with current word ali, exactly alice and ALICE2 are emitted. -/
theorem matching_amended :
    (∀ (color : Option (List Char)) (cached : List (List Char)) (text : List Char),
      (get_completions color cached text).map Completion.text
        = ((cached.map (adjustQuote (in_quotes text))).filter
            (fun o => containsSub ((word_before_cursor text).map lowerC)
              (o.map lowerC))))
    ∧ (get_completions none [("alice".toList), ("bob-admin".toList),
          ("ALICE2".toList)] ("ali".toList)).map Completion.text
        = [("alice".toList), ("ALICE2".toList)] := by
  constructor
  · intro color cached text
    exact filterMap_map_filter
      (completionsFor color (in_quotes text) (word_before_cursor text))
      Completion.text (adjustQuote (in_quotes text))
      (fun o => containsSub ((word_before_cursor text).map lowerC) (o.map lowerC))
      (fun obj => completionsFor_isSome color (in_quotes text)
        (word_before_cursor text) obj)
      cached
  · rfl

/-- Counterexample for C8: a text ending in a TAB character (whitespace) has
a non-empty current word under the code, where the claim demands the empty
word for any trailing whitespace. -/
theorem current_word_tab_counterexample :
    word_before_cursor ['a', tabC] = ['a'] ∧ (['a'] : List Char) ≠ [] := by
  constructor
  · rfl
  · decide

/-- C8 (amended): the current word is empty exactly when the text ends with
a SPACE character (not arbitrary whitespace); otherwise it is the final
whitespace-delimited token of the text, empty when the text has no
tokens. -/
theorem current_word_extraction :
    (∀ text : List Char, text.getLast? = some spc →
      word_before_cursor text = [])
    ∧ (∀ text : List Char, text.getLast? ≠ some spc →
      word_before_cursor text = ((pySplitWs text).getLast?).getD []) := by
  constructor
  · intro text h
    simp [word_before_cursor, h]
  · intro text h
    simp [word_before_cursor, beq_iff_eq, h]

/-- Witness for C8 (amended): a text ending in a space yields the empty
word; a text ending in a tab yields its last token. -/
theorem current_word_extraction_witness :
    word_before_cursor ['a', 'b', spc] = []
    ∧ word_before_cursor ['a', tabC] = ((pySplitWs ['a', tabC]).getLast?).getD [] :=
  ⟨current_word_extraction.1 ['a', 'b', spc] (by decide),
   current_word_extraction.2 ['a', tabC] (by decide)⟩

/-- C10: when the in-quote state is false and the candidate contains a
space, the loop body wraps the candidate in double quotes BEFORE both the
substring-match test and the highlight computation, so the emission
condition and the highlighted span refer to the quoted string; concretely,
a current word containing a double quote matches a space-containing
candidate through the added quote, and the bold-highlight markup encloses
the added quote character itself. -/
theorem quoted_match_highlight :
    (∀ (color : Option (List Char)) (text obj : List Char),
      obj.contains spc = true → in_quotes text = false →
      completionsFor color (in_quotes text) (word_before_cursor text) obj
        = (if containsSub ((word_before_cursor text).map lowerC)
              ((dquote :: (obj ++ [dquote])).map lowerC) = true
           then some ⟨dquote :: (obj ++ [dquote]),
               -((word_before_cursor text).length : Int),
               (match color with
                | some col => styleOpen col
                    ++ _highlight_match (dquote :: (obj ++ [dquote]))
                        (word_before_cursor text)
                    ++ ("</style>".toList)
                | none => _highlight_match (dquote :: (obj ++ [dquote]))
                    (word_before_cursor text))⟩
           else none))
    ∧ get_completions none [['a', spc, 'b']] [dquote, spc, dquote, 'a']
        = [⟨[dquote, 'a', spc, 'b', dquote], -2,
            hlOpen ++ [dquote, 'a'] ++ hlClose ++ [spc, 'b', dquote]⟩] := by
  constructor
  · intro color text obj hsp hq
    have hadj : adjustQuote (in_quotes text) obj = dquote :: (obj ++ [dquote]) := by
      unfold adjustQuote
      rw [hq, hsp]
      rfl
    unfold completionsFor
    dsimp only
    rw [hadj]
  · rfl

/-- Witness for C10 at the concrete quote-matching configuration. -/
theorem quoted_match_highlight_witness :
    completionsFor none (in_quotes [dquote, spc, dquote, 'a'])
        (word_before_cursor [dquote, spc, dquote, 'a']) ['a', spc, 'b']
      = (if containsSub ((word_before_cursor [dquote, spc, dquote, 'a']).map lowerC)
            ((dquote :: (['a', spc, 'b'] ++ [dquote])).map lowerC) = true
         then some ⟨dquote :: (['a', spc, 'b'] ++ [dquote]),
             -((word_before_cursor [dquote, spc, dquote, 'a']).length : Int),
             _highlight_match (dquote :: (['a', spc, 'b'] ++ [dquote]))
               (word_before_cursor [dquote, spc, dquote, 'a'])⟩
         else none) :=
  quoted_match_highlight.1 none [dquote, spc, dquote, 'a'] ['a', spc, 'b']
    (by decide) (by decide)
